import Mathlib

/-!
Verification of the signal-generation and risk-sizing pipeline of a periodic
crypto trading bot.

The development shallowly embeds the pipeline in Lean:

* prices, thresholds and quantities (Python floats) are modelled as rationals;
* integer configuration values (periods, lookbacks) are modelled as integers;
* Python list indexing and slicing are modelled by total functions returning
  `Option` (`none` models an `IndexError` / raised exception);
* functions that can raise an exception along some path return `Option`,
  where `none` models the raised exception;
* the per-symbol virtual position dictionary is modelled as an association
  list with Python `dict` insertion semantics.

Embedded sources: `bot/strategy.py` (indicators, base signal, filter chain,
variant-B pullback logic, `generate_signal`), `bot/virtual_pnl.py` (virtual
position ledger), `bot/main.py` (notional limits and risk controls),
`bot/trader.py` (`OKXTrader._calc_order_size_by_risk`), and the dataclasses
of the order-request module.
-/

/-- Python list indexing `l[i]`: negative indices count from the end,
out-of-range indexing is an `IndexError`, modelled as `none`. -/
def pyIdx (l : List ℚ) (i : ℤ) : Option ℚ :=
  let j : ℤ := if i < 0 then i + l.length else i
  if 0 ≤ j then l[j.toNat]? else none

/-- Python list slicing `l[a:b]` with possibly negative bounds (clamped,
never raising). -/
def pySlice (l : List ℚ) (a b : ℤ) : List ℚ :=
  let n : ℤ := l.length
  let a2 : ℤ := if a < 0 then max 0 (n + a) else min a n
  let b2 : ℤ := if b < 0 then max 0 (n + b) else min b n
  (l.take b2.toNat).drop a2.toNat

/-- `max` of a Python list; `none` models the `ValueError` on an empty list. -/
def maxListQ : List ℚ → Option ℚ
  | [] => none
  | x :: xs => some (xs.foldl max x)

/-- `min` of a Python list; `none` models the `ValueError` on an empty list. -/
def minListQ : List ℚ → Option ℚ
  | [] => none
  | x :: xs => some (xs.foldl min x)

/-- Python truncating integer conversion `int(x)` (toward zero). -/
def pyInt (x : ℚ) : ℤ := if 0 ≤ x then ⌊x⌋ else ⌈x⌉

-- ---------- candle extraction (strategy.extract_ohlc / extract_closes) ----------

/-- `extract_ohlc`: a kline row is `[ts, open, high, low, close, volume, ...]`;
rows too short to hold a field are skipped for that and later fields
(the Python loop catches the `IndexError` after the earlier appends). -/
def extract_ohlc (klines : List (List ℚ)) :
    List ℚ × List ℚ × List ℚ × List ℚ :=
  (klines.filterMap fun k => k[1]?,
   klines.filterMap fun k => k[2]?,
   klines.filterMap fun k => k[3]?,
   klines.filterMap fun k => k[4]?)

/-- `extract_closes`: the close column of a kline list. -/
def extract_closes (klines : List (List ℚ)) : List ℚ :=
  klines.filterMap fun k => k[4]?

-- ---------- indicators (strategy.py) ----------

/-- Tail of the EMA recurrence: given the smoothing factor `k` and the
previous EMA value, fold over the remaining prices. -/
def emaFrom (k : ℚ) : ℚ → List ℚ → List ℚ
  | _, [] => []
  | prev, price :: rest =>
    let e := price * k + prev * (1 - k)
    e :: emaFrom k e rest

/-- `ema(series, period)`: smoothing factor `2/(period+1)`, seeded with the
first element; empty input or non-positive period gives `[]`. -/
def ema (series : List ℚ) (period : ℤ) : List ℚ :=
  if period ≤ 0 then []
  else
    match series with
    | [] => []
    | s0 :: rest => s0 :: emaFrom (2 / ((period : ℚ) + 1)) s0 rest

/-- Consecutive differences `series[i] - series[i-1]`. -/
def deltasOf (s : List ℚ) : List ℚ :=
  (s.zip s.tail).map fun pr => pr.2 - pr.1

/-- The RSI value produced from a running average gain and average loss. -/
def rsiValue (g l : ℚ) : ℚ :=
  if l = 0 then 100 else 100 - 100 / (1 + g / l)

/-- The Wilder smoothing loop of `rsi`: each step folds one (gain, loss)
pair into the running averages and emits the resulting RSI value. -/
def rsiLoop (p : ℚ) : ℚ → ℚ → List (ℚ × ℚ) → List (Option ℚ)
  | _, _, [] => []
  | g, l, (gain, loss) :: rest =>
    let g2 := (g * (p - 1) + gain) / p
    let l2 := (l * (p - 1) + loss) / p
    some (rsiValue g2 l2) :: rsiLoop p g2 l2 rest

/-- `rsi(series, period)`: Wilder RSI. Returns `[]` when the series is too
short or the period non-positive; otherwise a list of the series length
whose first `period` entries are `none`. -/
def rsi (series : List ℚ) (period : ℤ) : List (Option ℚ) :=
  let n := series.length
  if n = 0 ∨ period ≤ 0 ∨ (n : ℤ) < period + 1 then []
  else
    let p := period.toNat
    let deltas := deltasOf series
    let gains := deltas.map fun d => max d 0
    let losses := deltas.map fun d => max (-d) 0
    let avgGain := (gains.take p).sum / (p : ℚ)
    let avgLoss := (losses.take p).sum / (p : ℚ)
    let headVals := List.replicate p (none : Option ℚ) ++ [some (rsiValue avgGain avgLoss)]
    let tailVals := rsiLoop (p : ℚ) avgGain avgLoss ((gains.drop p).zip (losses.drop p))
    let vals := headVals ++ tailVals
    (List.replicate (n - vals.length) (none : Option ℚ) ++ vals).take n

/-- `atr_from_closes(series, period)`: mean absolute close-to-close change
over the trailing `period` observations; `none` when not enough data. -/
def atr_from_closes (series : List ℚ) (period : ℤ) : Option ℚ :=
  if (series.length : ℤ) < period + 1 ∨ period ≤ 0 then none
  else
    let trs := (deltasOf series).map fun d => |d|
    let recent := trs.drop (trs.length - period.toNat)
    if recent = [] then none
    else some (recent.sum / (recent.length : ℚ))

/-- `recent_high_low(series, lookback)`: max/min of `series[-1-lookback:-1]`
(the window excludes the current bar); `(none, none)` when the series is
not longer than the lookback. -/
def recent_high_low (series : List ℚ) (lookback : ℤ) : Option ℚ × Option ℚ :=
  if (series.length : ℤ) ≤ lookback then (none, none)
  else
    let window := pySlice series (-1 - lookback) (-1)
    (maxListQ window, minListQ window)

/-- `pct_diff(a, b)`: relative distance of `a` from `b`, with the `999.0`
sentinel when `b` is zero. -/
def pct_diff (a b : ℚ) : ℚ :=
  if b = 0 then 999 else |a - b| / |b|

-- ---------- base signal stage (strategy.base_signal_from_ma) ----------

/-- `base_signal_from_ma`: sign of the relative fast/slow EMA divergence,
`0` inside the flat threshold `0.0003` or when fewer than `slow + 1`
closes are available. `none` models the `IndexError` raised when a
non-positive EMA period makes the EMA list empty. -/
def base_signal_from_ma (closes : List ℚ) (fast slow : ℤ) (sg : ℤ) : Option ℤ :=
  if (closes.length : ℤ) < slow + 1 then some 0
  else
    match (ema closes fast).getLast?, (ema closes slow).getLast? with
    | some fastLast, some slowLast =>
      let diff := fastLast - slowLast
      let relDiff := if slowLast ≠ 0 then diff / slowLast else 0
      let flatThreshold : ℚ := 3 / 10000
      some (if |relDiff| < flatThreshold then 0
            else if relDiff > 0 then 1 else -1)
    | _, _ => none

-- ---------- filter chain (strategy.apply_filters) ----------

/-- Higher-timeframe trend classification of `detect_htf_trend`. -/
inductive HtfTrend where
  | up
  | down
  | flat
  | unknown
deriving DecidableEq, Repr

/-- `detect_htf_trend`: compare the last close with the last EMA value;
`unknown` when the series is empty or shorter than the MA period. `none`
models the `IndexError` when a non-positive period empties the EMA list. -/
def detect_htf_trend (htfCloses : List ℚ) (maPeriod : ℤ) : Option HtfTrend :=
  if htfCloses = [] ∨ (htfCloses.length : ℤ) < maPeriod then some .unknown
  else
    match (ema htfCloses maPeriod).getLast?, htfCloses.getLast? with
    | some lastMa, some lastClose =>
      some (if lastClose > lastMa then .up
            else if lastClose < lastMa then .down else .flat)
    | _, _ => none

/-- `detect_crash`: `true` when the percentage change over the last
`lookback` bars is at most `threshold`; `false` when the series is too
short or the lookback non-positive. `none` models the
`ZeroDivisionError` when the reference close is zero. -/
def detect_crash (closes : List ℚ) (lookback : ℤ) (threshold : ℚ) : Option Bool :=
  if (closes.length : ℤ) < lookback + 1 ∨ lookback ≤ 0 then some false
  else
    match pyIdx closes (-1), pyIdx closes (-1 - lookback) with
    | some last, some prev =>
      if prev = 0 then none
      else some (decide ((last - prev) / prev ≤ threshold))
    | _, _ => none

/-- Configuration keys read by `apply_filters` from `cfg["filters"]`. -/
structure FiltersCfg where
  htf_ma_period : ℤ := 50
  rsi_period : ℤ := 14
  rsi_long_overbought : ℚ := 80
  rsi_short_oversold : ℚ := 20
  crash_lookback : ℤ := 6
  crash_threshold : ℚ := -7 / 100
  breakout_lookback : ℤ := 5
  atr_period : ℤ := 14
  atr_min_pct : ℚ := 2 / 1000
  fast_len_for_slope : ℤ := 12
  slope_lookback : ℤ := 3
  slope_min_abs : ℚ := 5 / 10000
deriving DecidableEq, Repr

/-- Filter 1: veto a long in a higher-timeframe downtrend, a short in an
uptrend. The trend source: `detect_htf_trend` when a non-empty
higher-timeframe series is given, `unknown` otherwise. -/
def htfStage (sig : ℤ) (htfCloses : Option (List ℚ)) (maPeriod : ℤ) : Option ℤ :=
  let trendRes : Option HtfTrend :=
    match htfCloses with
    | none => some .unknown
    | some h => if h = [] then some .unknown else detect_htf_trend h maPeriod
  trendRes.map fun trend =>
    if sig = 1 ∧ trend = .down then 0
    else if sig = -1 ∧ trend = .up then 0
    else sig

/-- Filter 2: veto an overbought long / oversold short by the last RSI
value; skipped when RSI is not ready. -/
def rsiStage (sig : ℤ) (closes : List ℚ) (period : ℤ)
    (longOverbought shortOversold : ℚ) : ℤ :=
  match ((rsi closes period).getLast?).join with
  | none => sig
  | some r =>
    if sig = 1 ∧ r ≥ longOverbought then 0
    else if sig = -1 ∧ r ≤ shortOversold then 0
    else sig

/-- Filter 3: after a detected crash, veto longs only. -/
def crashStage (sig : ℤ) (closes : List ℚ) (lookback : ℤ) (threshold : ℚ) :
    Option ℤ :=
  (detect_crash closes lookback threshold).map fun crashed =>
    if crashed = true ∧ sig = 1 then 0 else sig

/-- Filter 4: breakout confirmation — a long must close above the prior
window high, a short below the prior window low. -/
def breakoutStage (sig : ℤ) (closes : List ℚ) (lookback : ℤ) (lastClose : ℚ) : ℤ :=
  if sig ≠ 0 ∧ lookback > 0 then
    match recent_high_low closes lookback with
    | (some hi, some lo) =>
      if sig = 1 then (if ¬ (lastClose > hi) then 0 else sig)
      else if sig = -1 then (if ¬ (lastClose < lo) then 0 else sig)
      else sig
    | _ => sig
  else sig

/-- Filter 5: volatility floor — veto any signal when `atr / last_close`
is below the minimum percentage. -/
def atrStage (sig : ℤ) (closes : List ℚ) (period : ℤ) (minPct : ℚ)
    (lastClose : ℚ) : ℤ :=
  let atrPct : Option ℚ :=
    match atr_from_closes closes period with
    | some a => if lastClose ≠ 0 then some (a / lastClose) else none
    | none => none
  match atrPct with
  | some x => if x < minPct then 0 else sig
  | none => sig

/-- Filter 6: momentum slope — veto any signal on a flat fast EMA, a long
on a falling one, a short on a rising one. `none` models the
`IndexError` on pathological negative lookbacks. -/
def slopeStage (sig : ℤ) (closes : List ℚ) (fastLen lookback : ℤ)
    (minAbs : ℚ) : Option ℤ :=
  let vals := ema closes fastLen
  if (vals.length : ℤ) > lookback then
    match pyIdx vals (-1 - lookback), pyIdx vals (-1) with
    | some prev, some last =>
      if prev ≠ 0 then
        let slope := (last - prev) / prev
        some (if |slope| < minAbs then 0
              else if sig = 1 ∧ slope < 0 then 0
              else if sig = -1 ∧ slope > 0 then 0
              else sig)
      else some sig
    | _, _ => none
  else some sig

/-- `apply_filters`: the six veto filters in source order. `fastLen` is the
fast EMA length the caller stored in the diagnostic map (the `fast` of
the base signal), used by the slope filter. `none` models a raised
exception (e.g. `closes[-1]` on an empty series). -/
def apply_filters (rawSignal : ℤ) (closes : List ℚ) (htfCloses : Option (List ℚ))
    (cfg : FiltersCfg) (fastLen : ℤ) : Option ℤ :=
  (htfStage rawSignal htfCloses cfg.htf_ma_period).bind fun s1 =>
    let s2 := rsiStage s1 closes cfg.rsi_period cfg.rsi_long_overbought
      cfg.rsi_short_oversold
    (crashStage s2 closes cfg.crash_lookback cfg.crash_threshold).bind fun s3 =>
      (pyIdx closes (-1)).bind fun lastClose =>
        let s4 := breakoutStage s3 closes cfg.breakout_lookback lastClose
        let s5 := atrStage s4 closes cfg.atr_period cfg.atr_min_pct lastClose
        slopeStage s5 closes fastLen cfg.slope_lookback cfg.slope_min_abs

-- ---------- variant B: pullback reentry (strategy.py) ----------

/-- Macro trend classification of `detect_trend_ma50_200`. -/
inductive BTrend where
  | bull
  | bear
  | noTrend
deriving DecidableEq, Repr

/-- `detect_trend_ma50_200`: bull iff the fast HTF EMA is above the slow one
and the last close above the fast EMA; bear symmetric; `noTrend` when
neither holds or fewer than `slow + 2` closes are available. -/
def detect_trend_ma50_200 (htfCloses : List ℚ) (fast slow : ℤ) : Option BTrend :=
  if (htfCloses.length : ℤ) < slow + 2 then some .noTrend
  else
    match (ema htfCloses fast).getLast?, (ema htfCloses slow).getLast?,
      htfCloses.getLast? with
    | some emaFast, some emaSlow, some last =>
      some (if emaFast > emaSlow ∧ last > emaFast then .bull
            else if emaFast < emaSlow ∧ last < emaFast then .bear
            else .noTrend)
    | _, _, _ => none

/-- Configuration keys read from `cfg["logic"]["B"]`. -/
structure BCfg where
  pullback_near_pct : ℚ := 3 / 1000
  guard_break_pct : ℚ := 0
  require_structure : Bool := true
  confirm_mode : String := "close"
  htf_fast : ℤ := 50
  htf_slow : ℤ := 200
  entry_ma1 : ℤ := 20
  entry_ma2 : ℤ := 30
  guard_ma : ℤ := 50
  use_rsi_filter : Bool := true
  use_atr_filter : Bool := true
deriving DecidableEq, Repr

/-- Strategy mode dispatch value of `cfg["logic"]["mode"]`. -/
inductive Mode where
  | A
  | B
deriving DecidableEq, Repr

/-- Configuration keys read from `cfg["logic"]`. -/
structure LogicCfg where
  mode : Mode := .A
  fast : ℤ := 12
  slow : ℤ := 26
  sg : ℤ := 9
  bcfg : BCfg := {}
deriving DecidableEq, Repr

/-- The strategy configuration object (`logic` and `filters` sections). -/
structure BotCfg where
  logic : LogicCfg := {}
  filters : FiltersCfg := {}
deriving DecidableEq, Repr

/-- The optional RSI veto of the variant-B long branch. -/
def bLongRsiBlocked (closes : List ℚ) (fcfg : FiltersCfg) : Prop :=
  match ((rsi closes fcfg.rsi_period).getLast?).join with
  | some r => r ≥ fcfg.rsi_long_overbought
  | none => False

/-- The optional RSI veto of the variant-B short branch. -/
def bShortRsiBlocked (closes : List ℚ) (fcfg : FiltersCfg) : Prop :=
  match ((rsi closes fcfg.rsi_period).getLast?).join with
  | some r => r ≤ fcfg.rsi_short_oversold
  | none => False

/-- The optional low-volatility veto shared by both variant-B branches. -/
def bAtrBlocked (closes : List ℚ) (fcfg : FiltersCfg) (lastClose : ℚ) : Prop :=
  match atr_from_closes closes fcfg.atr_period with
  | some a => lastClose ≠ 0 ∧ a / lastClose < fcfg.atr_min_pct
  | none => False

instance (closes : List ℚ) (fcfg : FiltersCfg) :
    Decidable (bLongRsiBlocked closes fcfg) := by
  unfold bLongRsiBlocked; exact match ((rsi closes fcfg.rsi_period).getLast?).join with
    | some r => inferInstanceAs (Decidable (r ≥ _))
    | none => inferInstanceAs (Decidable False)

instance (closes : List ℚ) (fcfg : FiltersCfg) :
    Decidable (bShortRsiBlocked closes fcfg) := by
  unfold bShortRsiBlocked; exact match ((rsi closes fcfg.rsi_period).getLast?).join with
    | some r => inferInstanceAs (Decidable (r ≤ _))
    | none => inferInstanceAs (Decidable False)

instance (closes : List ℚ) (fcfg : FiltersCfg) (lastClose : ℚ) :
    Decidable (bAtrBlocked closes fcfg lastClose) := by
  unfold bAtrBlocked; exact match atr_from_closes closes fcfg.atr_period with
    | some a => inferInstanceAs (Decidable (_ ∧ _))
    | none => inferInstanceAs (Decidable False)

/-- `generate_signal_b_pullback`: higher-timeframe trend plus pullback
reentry; `0` when fewer than `max(guard_ma, entry_ma2) + 5` closes are
available, when the macro trend is absent, or when any setup condition
or optional filter fails. `none` models a raised exception. -/
def generate_signal_b_pullback (klines htfKlines : List (List ℚ))
    (cfg : BotCfg) : Option ℤ :=
  let b := cfg.logic.bcfg
  let fcfg := cfg.filters
  let ohlc := extract_ohlc klines
  let opens := ohlc.1
  let closes := ohlc.2.2.2
  let htfCloses := extract_closes htfKlines
  if (closes.length : ℤ) < max b.guard_ma b.entry_ma2 + 5 then some 0
  else
    (detect_trend_ma50_200 htfCloses b.htf_fast b.htf_slow).bind fun trend =>
    if trend = .noTrend then some 0
    else
      match (ema closes b.entry_ma1).getLast?, (ema closes b.entry_ma2).getLast?,
        (ema closes b.guard_ma).getLast? with
      | some ema20, some ema30, some ema50 =>
        match pyIdx opens (-2), pyIdx closes (-2), pyIdx opens (-1),
          pyIdx closes (-1), pyIdx closes (-3) with
        | some _oPrev, some cPrev, some oNow, some cNow, some cBefore =>
          let nearMa := pct_diff cPrev ema20 ≤ b.pullback_near_pct ∨
            pct_diff cPrev ema30 ≤ b.pullback_near_pct
          if trend = .bull then
            let guardLine := ema50 * (1 - b.guard_break_pct)
            let guardOk := cPrev ≥ guardLine
            let confirmOk := if b.confirm_mode = "close" then cNow > oNow else cNow > cPrev
            let structureOk := if b.require_structure then cBefore > cPrev else True
            if ¬ (nearMa ∧ guardOk ∧ confirmOk ∧ structureOk) then some 0
            else if b.use_rsi_filter ∧ bLongRsiBlocked closes fcfg then some 0
            else if b.use_atr_filter ∧ bAtrBlocked closes fcfg cNow then some 0
            else some 1
          else
            let guardLine := ema50 * (1 + b.guard_break_pct)
            let guardOk := cPrev ≤ guardLine
            let confirmOk := if b.confirm_mode = "close" then cNow < oNow else cNow < cPrev
            let structureOk := if b.require_structure then cBefore < cPrev else True
            if ¬ (nearMa ∧ guardOk ∧ confirmOk ∧ structureOk) then some 0
            else if b.use_rsi_filter ∧ bShortRsiBlocked closes fcfg then some 0
            else if b.use_atr_filter ∧ bAtrBlocked closes fcfg cNow then some 0
            else some (-1)
        | _, _, _, _, _ => none
      | _, _, _ => none

-- ---------- main entry point (strategy.generate_signal) ----------

/-- `generate_signal`: dispatch on the configured mode. Variant B requires
higher-timeframe klines; variant A produces the base EMA-divergence
signal and refines it through `apply_filters`. Returns the final signal;
`none` models a raised exception. -/
def generate_signal (klines : List (List ℚ)) (cfg : BotCfg)
    (htfKlines : Option (List (List ℚ))) : Option ℤ :=
  match cfg.logic.mode with
  | .B =>
    match htfKlines with
    | none => some 0
    | some hk =>
      if hk = [] then some 0
      else generate_signal_b_pullback klines hk cfg
  | .A =>
    let closes := extract_closes klines
    if closes.length < 10 then some 0
    else
      (base_signal_from_ma closes cfg.logic.fast cfg.logic.slow cfg.logic.sg).bind
        fun rawSignal =>
          if rawSignal = 0 then some 0
          else
            let htfCloses : Option (List ℚ) :=
              match htfKlines with
              | some hk => if hk = [] then none else some (extract_closes hk)
              | none => none
            apply_filters rawSignal closes htfCloses cfg.filters cfg.logic.fast

-- ---------- order data model (trader dataclasses) ----------

/-- Execution environment. -/
inductive Env where
  | TEST
  | LIVE
deriving DecidableEq, Repr

/-- Market type. -/
inductive MarketType where
  | SPOT
  | FUTURES
deriving DecidableEq, Repr

/-- Order side. -/
inductive Side where
  | BUY
  | SELL
deriving DecidableEq, Repr

/-- Position side of a two-way futures position. -/
inductive PositionSide where
  | LONG
  | SHORT
deriving DecidableEq, Repr

/-- The `OrderRequest` dataclass handed from the strategy layer to the
trader and the risk controls. -/
structure OrderRequest where
  env : Env
  market : MarketType
  symbol : String
  side : Side
  amount : ℚ
  price : Option ℚ := none
  leverage : Option ℤ := none
  position_side : Option PositionSide := none
  reduce_only : Bool := false
  reason : String := ""
deriving DecidableEq, Repr

-- ---------- virtual position ledger (bot/virtual_pnl.py) ----------

/-- The `VirtualPosition` dataclass: one net virtual position per symbol. -/
structure VirtualPosition where
  symbol : String
  side : PositionSide
  qty : ℚ
  entry_price : ℚ
  entry_time : String
  reason_open : String := ""
deriving DecidableEq, Repr

/-- The `ClosedTrade` dataclass: one completed virtual round trip. -/
structure ClosedTrade where
  symbol : String
  side : PositionSide
  qty : ℚ
  entry_price : ℚ
  exit_price : ℚ
  entry_time : String
  exit_time : String
  pnl : ℚ
  reason_open : String
  reason_close : String
deriving DecidableEq, Repr

/-- The per-symbol positions dictionary of `VirtualPositionManager`. -/
abbrev Positions := List (String × VirtualPosition)

/-- Python `dict` assignment `d[k] = v`: replace the value of an existing
key in place, otherwise append the new binding. -/
def dictInsert (m : Positions) (k : String) (v : VirtualPosition) : Positions :=
  match m with
  | [] => [(k, v)]
  | (k2, v2) :: rest =>
    if k2 = k then (k, v) :: rest else (k2, v2) :: dictInsert rest k v

/-- `VirtualPositionManager._calc_pnl`: `(exit - entry) * qty` for a long,
`(entry - exit) * qty` for a short. -/
def calc_pnl (side : PositionSide) (entry_price exit_price qty : ℚ) : ℚ :=
  if side = .LONG then (exit_price - entry_price) * qty
  else (entry_price - exit_price) * qty

/-- `VirtualPositionManager.on_order_filled`: update the virtual positions
dictionary with one confirmed fill at `fill_price` and time `ts`;
returns the emitted `ClosedTrade` (if the fill closed a position) and
the new dictionary. -/
def on_order_filled (positions : Positions) (req : OrderRequest)
    (fill_price : ℚ) (ts : String) : Option ClosedTrade × Positions :=
  match req.position_side with
  | none => (none, positions)
  | some side =>
    let symbol := req.symbol
    let qty := req.amount
    match positions.lookup symbol with
    | none =>
      (none, dictInsert positions symbol
        { symbol := symbol, side := side, qty := qty, entry_price := fill_price,
          entry_time := ts, reason_open := req.reason })
    | some current =>
      if current.side = side then
        let newQty := current.qty + qty
        if newQty ≤ 0 then (none, positions)
        else
          let newEntry :=
            (current.entry_price * current.qty + fill_price * qty) / newQty
          (none, dictInsert positions symbol
            { current with entry_price := newEntry, qty := newQty })
      else
        let pnl := calc_pnl current.side current.entry_price fill_price current.qty
        let closed : ClosedTrade :=
          { symbol := symbol, side := current.side, qty := current.qty,
            entry_price := current.entry_price, exit_price := fill_price,
            entry_time := current.entry_time, exit_time := ts, pnl := pnl,
            reason_open := current.reason_open, reason_close := req.reason }
        (some closed, dictInsert positions symbol
          { symbol := symbol, side := side, qty := qty, entry_price := fill_price,
            entry_time := ts, reason_open := req.reason })

-- ---------- risk constants and notional limits (bot/main.py) ----------

/-- `MAX_ORDERS_PER_RUN`. -/
def MAX_ORDERS_PER_RUN : ℕ := 6

/-- `DEDUPE_SAME_SYMBOL_SIDE`. -/
def DEDUPE_SAME_SYMBOL_SIDE : Bool := true

/-- `MAX_SPOT_NOTIONAL_TEST`. -/
def MAX_SPOT_NOTIONAL_TEST : ℚ := 10

/-- `MAX_FUTURES_NOTIONAL_TEST`. -/
def MAX_FUTURES_NOTIONAL_TEST : ℚ := 10

/-- `MAX_SPOT_NOTIONAL_LIVE`. -/
def MAX_SPOT_NOTIONAL_LIVE : ℚ := 10

/-- `MAX_FUTURES_NOTIONAL_LIVE`. -/
def MAX_FUTURES_NOTIONAL_LIVE : ℚ := 10

/-- `LIVE_RISK_PER_TRADE`. -/
def LIVE_RISK_PER_TRADE : ℚ := 2 / 100

/-- `MAX_FUTURES_CONTRACTS_PER_ORDER`. -/
def MAX_FUTURES_CONTRACTS_PER_ORDER : ℚ := 100

/-- `_get_notional_limits(env, total_usdt)`: fixed caps in the demo
environment; in live, `min(absolute cap, total * LIVE_RISK_PER_TRADE)`
with `(0, 0)` when the total balance is non-positive. -/
def get_notional_limits (env : Env) (total_usdt : ℚ) : ℚ × ℚ :=
  match env with
  | .TEST => (MAX_SPOT_NOTIONAL_TEST, MAX_FUTURES_NOTIONAL_TEST)
  | .LIVE =>
    let total := max 0 total_usdt
    if total ≤ 0 then (0, 0)
    else
      let dynamicCap := total * LIVE_RISK_PER_TRADE
      (min MAX_SPOT_NOTIONAL_LIVE dynamicCap, min MAX_FUTURES_NOTIONAL_LIVE dynamicCap)

-- ---------- risk control adjuster (bot/main._apply_risk_controls) ----------

/-- The pricing context the risk controls read from the exchange clients:
last prices and futures contract sizes per symbol. `none` models a
failed (raising) lookup, which the source catches and ignores. -/
structure PriceCtx where
  spotLast : String → Option ℚ
  futLast : String → Option ℚ
  futContractSize : String → Option ℚ

/-- The deduplication key `(market, symbol, side, reduce_only)`. -/
abbrev OrderKey := MarketType × String × Side × Bool

/-- Keep only the first order per deduplication key, preserving order. -/
def dedupeOrders : List OrderRequest → List OrderKey → List OrderRequest
  | [], _ => []
  | o :: rest, seen =>
    let key : OrderKey := (o.market, o.symbol, o.side, o.reduce_only)
    if key ∈ seen then dedupeOrders rest seen
    else o :: dedupeOrders rest (key :: seen)

/-- The spot branch of the per-order notional cap: scale the quantity down
to `cap / price` when the estimated notional exceeds a positive cap; on
a failed price lookup the order passes unchanged. -/
def adjustSpotOrder (o : OrderRequest) (ctx : PriceCtx) (maxSpotNotional : ℚ) :
    OrderRequest :=
  match ctx.spotLast o.symbol with
  | none => o
  | some lastPrice =>
    let notional := o.amount * lastPrice
    if lastPrice > 0 ∧ maxSpotNotional > 0 ∧ notional > maxSpotNotional then
      { o with amount := maxSpotNotional / lastPrice }
    else o

/-- The futures branch of the per-order notional cap: scale the contract
count down to `cap / (contract_size * price)` (hard-capped at
`MAX_FUTURES_CONTRACTS_PER_ORDER`) when the estimated notional exceeds a
positive cap; otherwise apply only the hard contract cap; on a failed
market or price lookup the order passes unchanged. -/
def adjustFuturesOrder (o : OrderRequest) (ctx : PriceCtx) (maxFutNotional : ℚ) :
    OrderRequest :=
  match ctx.futContractSize o.symbol, ctx.futLast o.symbol with
  | some contractSize, some lastPrice =>
    let notional := o.amount * contractSize * lastPrice
    if lastPrice > 0 ∧ maxFutNotional > 0 ∧ notional > maxFutNotional then
      let maxAmt := min (maxFutNotional / (contractSize * lastPrice)) MAX_FUTURES_CONTRACTS_PER_ORDER
      { o with amount := maxAmt }
    else if o.amount > MAX_FUTURES_CONTRACTS_PER_ORDER then
      { o with amount := MAX_FUTURES_CONTRACTS_PER_ORDER }
    else o
  | _, _ => o

/-- `_apply_risk_controls`: deduplicate, truncate to `MAX_ORDERS_PER_RUN`,
then cap each order notional per market type. -/
def apply_risk_controls (env : Env) (orders : List OrderRequest) (ctx : PriceCtx)
    (maxSpotNotional maxFutNotional : ℚ) : List OrderRequest :=
  if orders = [] then []
  else
    let orders1 := if DEDUPE_SAME_SYMBOL_SIDE then dedupeOrders orders [] else orders
    let orders2 :=
      if orders1.length > MAX_ORDERS_PER_RUN then orders1.take MAX_ORDERS_PER_RUN
      else orders1
    orders2.map fun o =>
      if o.market = .SPOT then adjustSpotOrder o ctx maxSpotNotional
      else adjustFuturesOrder o ctx maxFutNotional

-- ---------- order sizing (trader.OKXTrader._calc_order_size_by_risk) ----------

/-- `OKXTrader._calc_order_size_by_risk`: convert the planned notional
`equity * max_pos_pct` into a whole number of contracts using the
per-contract notional `ct_val * ref_price`, truncating toward zero and
raising any result below `1` to exactly `1` contract. The exchange
lookups (`equity`, `ct_val`) are passed in as values. -/
def calc_order_size_by_risk (equity max_pos_pct ctVal0 : ℚ)
    (ref_price : Option ℚ) : ℤ :=
  let notional := equity * max_pos_pct
  let ct_val := if ctVal0 ≤ 0 then 1 else ctVal0
  let sz : ℤ :=
    match ref_price with
    | some r =>
      if 0 < r then
        let contractNotional := ct_val * r
        let contractNotional2 := if contractNotional ≤ 0 then r else contractNotional
        pyInt (notional / contractNotional2)
      else pyInt (notional / ct_val)
    | none => pyInt (notional / ct_val)
  if sz < 1 then 1 else sz

-- ---------- theorems ----------

/-- C10: a fill whose order request carries no position side (e.g. a spot
order) returns no `ClosedTrade` and leaves the per-symbol positions
dictionary of the virtual ledger completely unchanged. -/
theorem on_order_filled_no_position_side_frame (positions : Positions)
    (req : OrderRequest) (fill_price : ℚ) (ts : String)
    (h : req.position_side = none) :
    on_order_filled positions req fill_price ts = (none, positions) := by
  unfold on_order_filled
  rw [h]

/-- C10 witness: a concrete spot order request with no position side. -/
theorem on_order_filled_no_position_side_frame_witness :
    ({ env := .TEST, market := .SPOT, symbol := "BTC/USDT", side := .BUY,
       amount := 1 } : OrderRequest).position_side = none ∧
    on_order_filled [("ETH/USDT",
        { symbol := "ETH/USDT", side := .LONG, qty := 2, entry_price := 1500,
          entry_time := "t0" })]
      { env := .TEST, market := .SPOT, symbol := "BTC/USDT", side := .BUY,
        amount := 1 } 100 "t1" =
      (none, [("ETH/USDT",
        { symbol := "ETH/USDT", side := .LONG, qty := 2, entry_price := 1500,
          entry_time := "t0" })]) :=
  ⟨rfl, on_order_filled_no_position_side_frame _ _ 100 "t1" rfl⟩

/-- Concrete long-opening fill used for the C2 counterexample/witness. -/
def c2reqLong : OrderRequest :=
  { env := .TEST, market := .FUTURES, symbol := "BTC-USDT-SWAP", side := .BUY,
    amount := 1, position_side := some .LONG, reason := "open long" }

/-- Concrete short fill of the same quantity used for C2. -/
def c2reqShort : OrderRequest :=
  { env := .TEST, market := .FUTURES, symbol := "BTC-USDT-SWAP", side := .SELL,
    amount := 1, position_side := some .SHORT, reason := "flip short" }

/-- C2 counterexample: a Long fill of quantity 1 at 100 followed by a Short
fill of quantity 1 at 90 emits a `ClosedTrade` with `pnl = -10`, which is
`(P2 - P1) * Q`, not `(P1 - P2) * Q = 10` as claimed; and the remaining
position is a Short of size 1 (the full incoming quantity), not 0. -/
theorem virtual_round_trip_counterexample :
    ((on_order_filled (on_order_filled [] c2reqLong 100 "t1").2
        c2reqShort 90 "t2").1.map ClosedTrade.pnl = some (-10)) ∧
    ((-10 : ℚ) ≠ (100 - 90) * 1) ∧
    (((on_order_filled (on_order_filled [] c2reqLong 100 "t1").2
        c2reqShort 90 "t2").2.lookup "BTC-USDT-SWAP").map VirtualPosition.qty =
      some 1) ∧
    ((1 : ℚ) ≠ 0) := by
  refine ⟨?_, by norm_num, ?_, by norm_num⟩ <;>
    simp [on_order_filled, c2reqLong, c2reqShort, dictInsert, calc_pnl,
      List.lookup] <;> norm_num

/-- C2 (amended): a Long fill of quantity `Q` at `P1` followed by a Short
fill of quantity `Q2` at `P2` for the same symbol emits exactly one
`ClosedTrade`, with `pnl = (P2 - P1) * Q`, and replaces the position by a
fresh Short of the full incoming quantity `Q2` entered at `P2`
(close-then-reopen, no netting). -/
theorem virtual_round_trip (req1 req2 : OrderRequest) (sym : String)
    (Q Q2 P1 P2 : ℚ) (t1 t2 : String)
    (h1s : req1.symbol = sym) (h1p : req1.position_side = some .LONG)
    (h1a : req1.amount = Q)
    (h2s : req2.symbol = sym) (h2p : req2.position_side = some .SHORT)
    (h2a : req2.amount = Q2) :
    (on_order_filled [] req1 P1 t1).1 = none ∧
    (on_order_filled (on_order_filled [] req1 P1 t1).2 req2 P2 t2).1 =
      some { symbol := sym, side := .LONG, qty := Q, entry_price := P1,
             exit_price := P2, entry_time := t1, exit_time := t2,
             pnl := (P2 - P1) * Q, reason_open := req1.reason,
             reason_close := req2.reason } ∧
    (on_order_filled (on_order_filled [] req1 P1 t1).2 req2 P2 t2).2 =
      [(sym, { symbol := sym, side := .SHORT, qty := Q2, entry_price := P2,
               entry_time := t2, reason_open := req2.reason })] := by
  subst h1s h1a h2a
  refine ⟨?_, ?_, ?_⟩ <;>
    simp [on_order_filled, h1p, h2p, dictInsert, calc_pnl, List.lookup, h2s]

/-- C2 witness: the amended round trip at quantity 1, entry 100, exit 90. -/
theorem virtual_round_trip_witness :
    (on_order_filled [] c2reqLong 100 "t1").1 = none ∧
    (on_order_filled (on_order_filled [] c2reqLong 100 "t1").2
        c2reqShort 90 "t2").1 =
      some { symbol := "BTC-USDT-SWAP", side := .LONG, qty := 1,
             entry_price := 100, exit_price := 90, entry_time := "t1",
             exit_time := "t2", pnl := (90 - 100) * 1,
             reason_open := c2reqLong.reason,
             reason_close := c2reqShort.reason } ∧
    (on_order_filled (on_order_filled [] c2reqLong 100 "t1").2
        c2reqShort 90 "t2").2 =
      [("BTC-USDT-SWAP",
        { symbol := "BTC-USDT-SWAP", side := .SHORT, qty := 1,
          entry_price := 90, entry_time := "t2",
          reason_open := c2reqShort.reason })] :=
  virtual_round_trip c2reqLong c2reqShort "BTC-USDT-SWAP" 1 1 100 90 "t1" "t2"
    rfl rfl rfl rfl rfl rfl

/-- C6: on the closes `[100, 101, 102, 103, 90]` with `lookback = 4` and
`threshold = -0.07` the crash condition is detected, and the crash filter
stage vetoes a Long raw signal (forcing it to 0) while a Short raw
signal passes through unchanged. -/
theorem crash_filter_example :
    detect_crash [100, 101, 102, 103, 90] 4 (-7 / 100) = some true ∧
    crashStage 1 [100, 101, 102, 103, 90] 4 (-7 / 100) = some 0 ∧
    crashStage (-1) [100, 101, 102, 103, 90] 4 (-7 / 100) = some (-1) := by
  have hd : detect_crash [100, 101, 102, 103, 90] 4 (-7 / 100) = some true := by
    simp [detect_crash, pyIdx]
    norm_num
  refine ⟨hd, ?_, ?_⟩ <;> simp [crashStage, hd]

/-- C9 counterexample: with equity 1000 and risk fraction 0.05 the planned
notional is 50; at reference price 25000 (contract value 1) the sizing
code truncates `50 / 25000` to 0 contracts and raises it to exactly 1
contract — not to a fractional minimum order quantity of 0.01. -/
theorem calc_order_size_counterexample :
    calc_order_size_by_risk 1000 (5 / 100) 1 (some 25000) = 1 ∧
    ((1 : ℚ) ≠ 1 / 100) := by
  constructor
  · norm_num [calc_order_size_by_risk, pyInt]
  · norm_num

/-- C9 (amended): the sizing code computes the contract count as
`int(notional / (ct_val * ref_price))` truncated toward zero, and raises
any result below 1 to exactly 1 contract; so the result is always at
least one contract, and equals `max 1` of the truncated ratio. -/
theorem calc_order_size_floor (equity pct c r : ℚ) (hc : 0 < c) (hr : 0 < r) :
    1 ≤ calc_order_size_by_risk equity pct c (some r) ∧
    calc_order_size_by_risk equity pct c (some r) =
      max 1 (pyInt (equity * pct / (c * r))) := by
  have h1 : ¬ (c ≤ 0) := not_le.mpr hc
  have h3 : ¬ (c * r ≤ 0) := not_le.mpr (mul_pos hc hr)
  unfold calc_order_size_by_risk
  simp only [h1, if_false, hr, if_true, h3]
  constructor
  · split <;> omega
  · split <;> omega

/-- C9 witness: the amended sizing statement at the example input. -/
theorem calc_order_size_floor_witness :
    1 ≤ calc_order_size_by_risk 1000 (5 / 100) 1 (some 25000) ∧
    calc_order_size_by_risk 1000 (5 / 100) 1 (some 25000) =
      max 1 (pyInt (1000 * (5 / 100) / (1 * 25000))) :=
  calc_order_size_floor 1000 (5 / 100) 1 25000 (by norm_num) (by norm_num)

/-- Concrete spot order used for the C3 counterexample/witness. -/
def c3order : OrderRequest :=
  { env := .LIVE, market := .SPOT, symbol := "BTC/USDT", side := .BUY,
    amount := 5 }

/-- Concrete pricing context used for the C3 counterexample/witness. -/
def c3ctx : PriceCtx :=
  { spotLast := fun _ => some 100, futLast := fun _ => some 100,
    futContractSize := fun _ => some 1 }

/-- C3 counterexample: with live equity 500 and free balance 0, the claimed
cap `min(absolute_cap, equity * risk_per_trade, free_balance)` is 0, but
the code computes 10 (no free-balance term); and with a cap of 0 the
risk controls pass the batch through unchanged instead of rejecting it. -/
theorem risk_cap_counterexample :
    get_notional_limits .LIVE 500 = (10, 10) ∧
    min (min MAX_SPOT_NOTIONAL_LIVE (500 * LIVE_RISK_PER_TRADE)) 0 = 0 ∧
    ((10 : ℚ) ≠ 0) ∧
    apply_risk_controls .LIVE [c3order] c3ctx 0 0 = [c3order] ∧
    ([c3order] ≠ ([] : List OrderRequest)) := by
  refine ⟨?_, ?_, by norm_num, ?_, by simp⟩
  · norm_num [get_notional_limits, MAX_SPOT_NOTIONAL_LIVE,
      MAX_FUTURES_NOTIONAL_LIVE, LIVE_RISK_PER_TRADE]
  · norm_num [MAX_SPOT_NOTIONAL_LIVE, LIVE_RISK_PER_TRADE]
  · simp [apply_risk_controls, DEDUPE_SAME_SYMBOL_SIDE, dedupeOrders,
      MAX_ORDERS_PER_RUN, adjustSpotOrder, c3order, c3ctx]

/-- C3 (amended): in a live environment the per-order notional cap is
`min(absolute_cap, max(0, equity) * risk_per_trade)` — the free balance
is not part of the cap — with `(0, 0)` when the equity is non-positive;
and a non-positive cap does not make the Risk Control Adjuster reject
the batch: a non-empty input batch always yields a non-empty output
(new-position opening is instead blocked upstream by the free-balance
threshold before sizing). -/
theorem risk_cap_live (total : ℚ) (env : Env) (orders : List OrderRequest)
    (ctx : PriceCtx) (capS capF : ℚ) (ht : 0 < total) (ho : orders ≠ []) :
    get_notional_limits .LIVE total =
      (min MAX_SPOT_NOTIONAL_LIVE (total * LIVE_RISK_PER_TRADE),
       min MAX_FUTURES_NOTIONAL_LIVE (total * LIVE_RISK_PER_TRADE)) ∧
    (∀ t2 : ℚ, t2 ≤ 0 → get_notional_limits .LIVE t2 = (0, 0)) ∧
    apply_risk_controls env orders ctx capS capF ≠ [] := by
  refine ⟨?_, ?_, ?_⟩
  · unfold get_notional_limits
    rw [max_eq_right ht.le]
    simp [not_le.mpr ht]
  · intro t2 h2
    unfold get_notional_limits
    rw [max_eq_left h2]
    simp
  · cases orders with
    | nil => exact absurd rfl ho
    | cons o rest =>
      unfold apply_risk_controls
      rw [if_neg (by simp)]
      rw [show dedupeOrders (o :: rest) [] =
          o :: dedupeOrders rest [(o.market, o.symbol, o.side, o.reduce_only)]
        from by simp [dedupeOrders]]
      simp only [DEDUPE_SAME_SYMBOL_SIDE, if_true]
      split
      · simp [MAX_ORDERS_PER_RUN]
      · simp

/-- C3 witness: the amended statement at equity 500 and a one-order batch
with both caps 0. -/
theorem risk_cap_live_witness :
    get_notional_limits .LIVE 500 =
      (min MAX_SPOT_NOTIONAL_LIVE (500 * LIVE_RISK_PER_TRADE),
       min MAX_FUTURES_NOTIONAL_LIVE (500 * LIVE_RISK_PER_TRADE)) ∧
    (∀ t2 : ℚ, t2 ≤ 0 → get_notional_limits .LIVE t2 = (0, 0)) ∧
    apply_risk_controls .LIVE [c3order] c3ctx 0 0 ≠ [] :=
  risk_cap_live 500 .LIVE [c3order] c3ctx 0 0 (by norm_num) (by simp)

/-- The EMA tail has the same length as its price input. -/
lemma emaFrom_length (k : ℚ) (a : ℚ) (l : List ℚ) :
    (emaFrom k a l).length = l.length := by
  induction l generalizing a with
  | nil => rfl
  | cons x xs ih => simp [emaFrom, ih]

/-- Each EMA entry after the seed follows the smoothing recurrence. -/
lemma emaFrom_chain (k : ℚ) (rest : List ℚ) :
    ∀ (a : ℚ) (i : ℕ) (x e : ℚ), rest[i]? = some x →
      (a :: emaFrom k a rest)[i]? = some e →
      (a :: emaFrom k a rest)[i + 1]? = some (x * k + e * (1 - k)) := by
  induction rest with
  | nil =>
    intro a i x e hx
    simp at hx
  | cons x0 rest2 ih =>
    intro a i x e hx he
    cases i with
    | zero =>
      simp at hx he
      subst hx he
      simp [emaFrom]
    | succ j =>
      have hx2 : rest2[j]? = some x := by simpa using hx
      have he2 : (x0 * k + a * (1 - k)) :: emaFrom k (x0 * k + a * (1 - k)) rest2 =
          emaFrom k a (x0 :: rest2) := by simp [emaFrom]
      have he3 : ((x0 * k + a * (1 - k)) ::
          emaFrom k (x0 * k + a * (1 - k)) rest2)[j]? = some e := by
        rw [he2]
        simpa using he
      have := ih (x0 * k + a * (1 - k)) j x e hx2 he3
      rw [he2] at this
      simpa using this

/-- C7: for every non-empty series and period at least 1, `ema` returns a
list of the same length, seeded with the first element and following
`ema[i+1] = price[i+1] * k + ema[i] * (1 - k)` with `k = 2/(period+1)`;
and `ema` over the flat series `[10, 10, 10]` with period 3 is flat. -/
theorem ema_recurrence (s : List ℚ) (p : ℤ) (hs : s ≠ []) (hp : 1 ≤ p) :
    (ema s p).length = s.length ∧
    (ema s p).head? = s.head? ∧
    (∀ (i : ℕ) (x e : ℚ), s[i + 1]? = some x → (ema s p)[i]? = some e →
      (ema s p)[i + 1]? =
        some (x * (2 / ((p : ℚ) + 1)) + e * (1 - 2 / ((p : ℚ) + 1)))) ∧
    ema [10, 10, 10] 3 = [10, 10, 10] := by
  have hnp : ¬ (p ≤ 0) := by omega
  have hex : ema [10, 10, 10] 3 = [10, 10, 10] := by
    norm_num [ema, emaFrom]
  cases s with
  | nil => exact absurd rfl hs
  | cons s0 rest =>
    have hform : ema (s0 :: rest) p =
        s0 :: emaFrom (2 / ((p : ℚ) + 1)) s0 rest := by
      simp [ema, hnp]
    refine ⟨?_, ?_, ?_, hex⟩
    · rw [hform]; simp [emaFrom_length]
    · rw [hform]; simp
    · intro i x e hx he
      rw [hform] at he ⊢
      exact emaFrom_chain _ rest s0 i x e (by simpa using hx) he

/-- C7 witness: the recurrence theorem applied to the flat example. -/
theorem ema_recurrence_witness :
    (ema [10, 10, 10] 3).length = 3 ∧
    (ema [10, 10, 10] 3)[1]? =
      some (10 * (2 / ((3 : ℚ) + 1)) + 10 * (1 - 2 / ((3 : ℚ) + 1))) ∧
    ema [10, 10, 10] 3 = [10, 10, 10] := by
  have h := ema_recurrence [10, 10, 10] 3 (by simp) (by norm_num)
  refine ⟨by simpa using h.1, ?_, h.2.2.2⟩
  have he : (ema [10, 10, 10] 3)[0]? = some 10 := by rw [h.2.2.2]; rfl
  exact h.2.2.1 0 10 10 rfl he

/-- The RSI of a pair of non-negative running averages is inside `[0, 100]`. -/
lemma rsiValue_bounds (g l : ℚ) (hg : 0 ≤ g) (hl : 0 ≤ l) :
    0 ≤ rsiValue g l ∧ rsiValue g l ≤ 100 := by
  unfold rsiValue
  split
  · norm_num
  · rename_i hl0
    have hlpos : 0 < l := lt_of_le_of_ne hl (Ne.symm hl0)
    have hq : 0 ≤ g / l := div_nonneg hg hl
    have hd : (1 : ℚ) ≤ 1 + g / l := by linarith
    have ht0 : 0 < 100 / (1 + g / l) := by positivity
    have ht1 : 100 / (1 + g / l) ≤ 100 := by
      calc 100 / (1 + g / l) ≤ 100 / 1 :=
            div_le_div_of_nonneg_left (by norm_num) (by norm_num) hd
        _ = 100 := by norm_num
    constructor <;> linarith

/-- Every value emitted by the Wilder smoothing loop from non-negative
averages and non-negative gain/loss pairs is inside `[0, 100]`. -/
lemma rsiLoop_mem_bounds (p : ℚ) (hp : 1 ≤ p) (pairs : List (ℚ × ℚ)) :
    ∀ (g l : ℚ), 0 ≤ g → 0 ≤ l → (∀ pr ∈ pairs, 0 ≤ pr.1 ∧ 0 ≤ pr.2) →
    ∀ v ∈ rsiLoop p g l pairs, ∀ q : ℚ, v = some q → 0 ≤ q ∧ q ≤ 100 := by
  induction pairs with
  | nil =>
    intro g l _ _ _ v hv
    simp [rsiLoop] at hv
  | cons pr rest ih =>
    intro g l hg hl hmem v hv q hq
    obtain ⟨gain, loss⟩ := pr
    have hgain : 0 ≤ gain := (hmem (gain, loss) (by simp)).1
    have hloss : 0 ≤ loss := (hmem (gain, loss) (by simp)).2
    have hp0 : (0 : ℚ) < p := by linarith
    have hg2 : 0 ≤ (g * (p - 1) + gain) / p :=
      div_nonneg (by nlinarith) hp0.le
    have hl2 : 0 ≤ (l * (p - 1) + loss) / p :=
      div_nonneg (by nlinarith) hp0.le
    simp only [rsiLoop, List.mem_cons] at hv
    rcases hv with hv | hv
    · subst hv
      obtain ⟨hq1, hq2⟩ := rsiValue_bounds _ _ hg2 hl2
      cases hq
      exact ⟨hq1, hq2⟩
    · exact ih _ _ hg2 hl2 (fun pr2 hpr2 => hmem pr2 (by simp [hpr2])) v hv q hq

/-- C5: for a period of at least 1, `rsi` returns the empty sentinel (never
raising) when fewer than `period + 1` closes are available, every
non-sentinel value it produces lies in `[0, 100]`, and a zero running
average loss always yields the RSI value exactly 100. -/
theorem rsi_bounded (s : List ℚ) (p : ℤ) (hp : 1 ≤ p) :
    ((s.length : ℤ) < p + 1 → rsi s p = []) ∧
    (∀ v ∈ rsi s p, ∀ q : ℚ, v = some q → 0 ≤ q ∧ q ≤ 100) ∧
    (∀ g : ℚ, rsiValue g 0 = 100) := by
  have hPq : (1 : ℚ) ≤ (p.toNat : ℚ) := by
    have h1 : 1 ≤ p.toNat := by omega
    exact_mod_cast h1
  have hP0 : (0 : ℚ) ≤ (p.toNat : ℚ) := by linarith
  have hgains : ∀ x ∈ (deltasOf s).map (fun d => max d 0), 0 ≤ x := by
    intro x hx
    obtain ⟨d, _, rfl⟩ := List.mem_map.1 hx
    exact le_max_right d 0
  have hlosses : ∀ x ∈ (deltasOf s).map (fun d => max (-d) 0), 0 ≤ x := by
    intro x hx
    obtain ⟨d, _, rfl⟩ := List.mem_map.1 hx
    exact le_max_right (-d) 0
  have hA : 0 ≤ (((deltasOf s).map (fun d => max d 0)).take p.toNat).sum /
      (p.toNat : ℚ) :=
    div_nonneg
      (List.sum_nonneg fun x hx => hgains x (List.mem_of_mem_take hx)) hP0
  have hL : 0 ≤ (((deltasOf s).map (fun d => max (-d) 0)).take p.toNat).sum /
      (p.toNat : ℚ) :=
    div_nonneg
      (List.sum_nonneg fun x hx => hlosses x (List.mem_of_mem_take hx)) hP0
  refine ⟨?_, ?_, ?_⟩
  · intro h
    simp [rsi, h]
  · intro v hv q hq
    by_cases hguard : s.length = 0 ∨ p ≤ 0 ∨ (s.length : ℤ) < p + 1
    · simp only [rsi] at hv
      rw [if_pos hguard] at hv
      simp at hv
    · simp only [rsi] at hv
      rw [if_neg hguard] at hv
      have hv2 := List.mem_of_mem_take hv
      rcases List.mem_append.1 hv2 with hrep | hval
      · rw [List.eq_of_mem_replicate hrep] at hq
        simp at hq
      · rcases List.mem_append.1 hval with hh | ht
        · rcases List.mem_append.1 hh with hrep2 | hsing
          · rw [List.eq_of_mem_replicate hrep2] at hq
            simp at hq
          · rw [List.mem_singleton.1 hsing] at hq
            obtain rfl := Option.some.inj hq
            exact rsiValue_bounds _ _ hA hL
        · exact rsiLoop_mem_bounds (p.toNat : ℚ) hPq _ _ _ hA hL
            (fun pr hpr => by
              obtain ⟨h1, h2⟩ := List.of_mem_zip hpr
              exact ⟨hgains _ (List.mem_of_mem_drop h1),
                hlosses _ (List.mem_of_mem_drop h2)⟩)
            v ht q hq
  · intro g
    simp [rsiValue]

/-- C5 witness: on the series `[1, 2, 1, 2, 1]` with period 2 the RSI value
75 is produced and bounded, and a 4-element series is too short. -/
theorem rsi_bounded_witness :
    (0 ≤ (75 : ℚ) ∧ (75 : ℚ) ≤ 100) ∧ rsi [1, 2, 1] 3 = [] := by
  have hmem : some (75 : ℚ) ∈ rsi [1, 2, 1, 2, 1] 2 := by
    have hlist : rsi [1, 2, 1, 2, 1] 2 =
        [none, none, some 50, some 75, some (75 / 2)] := by
      simp only [rsi, deltasOf, show ((2 : ℤ).toNat) = 2 from rfl]
      norm_num [rsiLoop, rsiValue, List.replicate]
    rw [hlist]
    simp
  exact ⟨(rsi_bounded [1, 2, 1, 2, 1] 2 (by norm_num)).2.1 _ hmem 75 rfl,
    (rsi_bounded [1, 2, 1] 3 (by norm_num)).1 (by norm_num)⟩

/-- Successful negative Python indexing returns a member of the list. -/
lemma pyIdx_neg_some (l : List ℚ) (i : ℤ) (hneg : i < 0)
    (hge : 0 ≤ i + l.length) : ∃ x, pyIdx l i = some x ∧ x ∈ l := by
  unfold pyIdx
  simp only [if_pos hneg, if_pos hge]
  have hlt : (i + (l.length : ℤ)).toNat < l.length := by omega
  exact ⟨l[(i + (l.length : ℤ)).toNat],
    List.getElem?_eq_getElem hlt, List.getElem_mem hlt⟩

/-- A non-empty series with a positive period has a non-empty EMA. -/
lemma ema_ne_nil (s : List ℚ) (p : ℤ) (hs : s ≠ []) (hp : 1 ≤ p) :
    ema s p ≠ [] := by
  cases s with
  | nil => exact absurd rfl hs
  | cons a l => simp [ema, show ¬ (p ≤ 0) by omega]

/-- A non-empty list has a last element. -/
lemma getLast?_some_of_ne_nil {α : Type} (l : List α) (h : l ≠ []) :
    ∃ x, l.getLast? = some x :=
  ⟨l.getLast h, List.getLast?_eq_getLast l h⟩

/-- A two-condition veto keeps the signal or zeroes it. -/
lemma veto2_cases (sig : ℤ) (c1 c2 : Prop) [Decidable c1] [Decidable c2] :
    ((if c1 then 0 else if c2 then 0 else sig) = sig ∨
     (if c1 then 0 else if c2 then 0 else sig) = 0) := by
  split
  · exact Or.inr rfl
  · split
    · exact Or.inr rfl
    · exact Or.inl rfl

/-- A one-condition veto keeps the signal or zeroes it. -/
lemma veto1_cases (sig : ℤ) (c : Prop) [Decidable c] :
    ((if c then 0 else sig) = sig ∨ (if c then 0 else sig) = 0) := by
  split
  · exact Or.inr rfl
  · exact Or.inl rfl

/-- A non-empty series with a positive MA period always classifies. -/
lemma detect_htf_trend_some (h : List ℚ) (period : ℤ) (hh : h ≠ [])
    (hp : 1 ≤ period) : ∃ t, detect_htf_trend h period = some t := by
  unfold detect_htf_trend
  split
  · exact ⟨.unknown, rfl⟩
  · obtain ⟨m, hm⟩ :=
      getLast?_some_of_ne_nil (ema h period) (ema_ne_nil h period hh hp)
    obtain ⟨c, hc⟩ := getLast?_some_of_ne_nil h hh
    rw [hm, hc]
    exact ⟨_, rfl⟩

/-- The higher-timeframe trend filter never raises for a positive MA period
and only keeps or zeroes the signal. -/
lemma htfStage_cases (sig : ℤ) (htf : Option (List ℚ)) (period : ℤ)
    (hp : 1 ≤ period) :
    ∃ s1, htfStage sig htf period = some s1 ∧ (s1 = sig ∨ s1 = 0) := by
  cases htf with
  | none =>
    have h0 : htfStage sig none period = some (if sig = 1 ∧ HtfTrend.unknown = .down
        then 0 else if sig = -1 ∧ HtfTrend.unknown = .up then 0 else sig) := rfl
    exact ⟨_, h0, veto2_cases sig _ _⟩
  | some h =>
    by_cases hh : h = []
    · have h0 : htfStage sig (some h) period =
          some (if sig = 1 ∧ HtfTrend.unknown = .down then 0
                else if sig = -1 ∧ HtfTrend.unknown = .up then 0 else sig) := by
        simp only [htfStage, if_pos hh, Option.map_some']
      exact ⟨_, h0, veto2_cases sig _ _⟩
    · obtain ⟨t, ht⟩ := detect_htf_trend_some h period hh hp
      have h0 : htfStage sig (some h) period =
          some (if sig = 1 ∧ t = .down then 0
                else if sig = -1 ∧ t = .up then 0 else sig) := by
        simp only [htfStage, if_neg hh, ht, Option.map_some']
      exact ⟨_, h0, veto2_cases sig _ _⟩

/-- The RSI filter only keeps or zeroes the signal. -/
lemma rsiStage_cases (sig : ℤ) (closes : List ℚ) (period : ℤ) (ob os : ℚ) :
    (rsiStage sig closes period ob os = sig ∨
     rsiStage sig closes period ob os = 0) := by
  unfold rsiStage
  cases hX : ((rsi closes period).getLast?).join with
  | none => exact Or.inl rfl
  | some r => exact veto2_cases sig _ _

/-- The crash filter never raises on positive closes and only keeps or
zeroes the signal. -/
lemma crashStage_cases (sig : ℤ) (closes : List ℚ) (lookback : ℤ)
    (threshold : ℚ) (hpos : ∀ x ∈ closes, 0 < x) :
    ∃ s2, crashStage sig closes lookback threshold = some s2 ∧
      (s2 = sig ∨ s2 = 0) := by
  unfold crashStage detect_crash
  split
  · simp only [Option.map_some']
    exact ⟨_, rfl, veto1_cases sig _⟩
  · rename_i hguard
    rw [not_or] at hguard
    obtain ⟨hlen, hlb⟩ := hguard
    have hlen2 : lookback + 1 ≤ (closes.length : ℤ) := by omega
    have hlb2 : 1 ≤ lookback := by omega
    obtain ⟨last, hlast, _⟩ := pyIdx_neg_some closes (-1) (by norm_num) (by omega)
    obtain ⟨prev, hprev, hprevmem⟩ :=
      pyIdx_neg_some closes (-1 - lookback) (by omega) (by omega)
    have hne0 : prev ≠ 0 := (hpos prev hprevmem).ne'
    simp only [hlast, hprev, hne0, if_false, Option.map_some', ite_false]
    exact ⟨_, rfl, veto1_cases sig _⟩

/-- The breakout filter only keeps or zeroes the signal. -/
lemma breakoutStage_cases (sig : ℤ) (closes : List ℚ) (lookback : ℤ)
    (lastClose : ℚ) :
    (breakoutStage sig closes lookback lastClose = sig ∨
     breakoutStage sig closes lookback lastClose = 0) := by
  unfold breakoutStage
  repeat' split
  all_goals first
  | exact Or.inl rfl
  | exact Or.inr rfl

/-- The volatility-floor filter only keeps or zeroes the signal. -/
lemma atrStage_cases (sig : ℤ) (closes : List ℚ) (period : ℤ) (minPct : ℚ)
    (lastClose : ℚ) :
    (atrStage sig closes period minPct lastClose = sig ∨
     atrStage sig closes period minPct lastClose = 0) := by
  unfold atrStage
  rcases hA : atr_from_closes closes period with _ | a
  · simp only [hA]
    exact Or.inl trivial
  · simp only [hA]
    by_cases hc : lastClose ≠ 0
    · simp only [if_pos hc]
      exact veto1_cases sig (a / lastClose < minPct)
    · simp only [if_neg hc]
      exact Or.inl trivial

/-- The slope filter never raises for a non-negative lookback and only
keeps or zeroes the signal. -/
lemma slopeStage_cases (sig : ℤ) (closes : List ℚ) (fastLen lookback : ℤ)
    (minAbs : ℚ) (hlb : 0 ≤ lookback) :
    ∃ s6, slopeStage sig closes fastLen lookback minAbs = some s6 ∧
      (s6 = sig ∨ s6 = 0) := by
  simp only [slopeStage]
  split
  · rename_i hlen
    obtain ⟨prev, hprev, _⟩ :=
      pyIdx_neg_some (ema closes fastLen) (-1 - lookback) (by omega) (by omega)
    obtain ⟨last, hlast, _⟩ :=
      pyIdx_neg_some (ema closes fastLen) (-1) (by norm_num) (by omega)
    simp only [hprev, hlast]
    split
    · refine ⟨_, rfl, ?_⟩
      repeat' split
      all_goals first
      | exact Or.inl rfl
      | exact Or.inr rfl
    · exact ⟨sig, rfl, Or.inl rfl⟩
  · exact ⟨sig, rfl, Or.inl rfl⟩

/-- Transitivity of the keep-or-zero relation along the filter chain. -/
lemma keepOrZero_step (a b c : ℤ) (h1 : a = b ∨ a = 0) (h2 : b = c ∨ b = 0) :
    a = c ∨ a = 0 := by
  rcases h1 with rfl | rfl
  · exact h2
  · exact Or.inr rfl

/-- C1: for every raw signal and every filter configuration (with a
positive higher-timeframe MA period and non-negative slope lookback, on
a non-empty series of positive closes), the filter chain returns either
the unchanged raw signal or 0: no filter can output a direction
different from the raw signal, and a vetoed signal stays vetoed. -/
theorem apply_filters_monotone (raw : ℤ) (closes : List ℚ)
    (htfCloses : Option (List ℚ)) (cfg : FiltersCfg) (fastLen : ℤ)
    (hne : closes ≠ []) (hpos : ∀ x ∈ closes, 0 < x)
    (hhtf : 1 ≤ cfg.htf_ma_period) (hsl : 0 ≤ cfg.slope_lookback) :
    apply_filters raw closes htfCloses cfg fastLen = some raw ∨
    apply_filters raw closes htfCloses cfg fastLen = some 0 := by
  unfold apply_filters
  obtain ⟨s1, h1, d1⟩ := htfStage_cases raw htfCloses cfg.htf_ma_period hhtf
  rw [h1]
  simp only [Option.some_bind]
  set s2 := rsiStage s1 closes cfg.rsi_period cfg.rsi_long_overbought
    cfg.rsi_short_oversold with hs2
  have d2 : s2 = s1 ∨ s2 = 0 :=
    rsiStage_cases s1 closes cfg.rsi_period cfg.rsi_long_overbought
      cfg.rsi_short_oversold
  obtain ⟨s3, h3, d3⟩ :=
    crashStage_cases s2 closes cfg.crash_lookback cfg.crash_threshold hpos
  rw [h3]
  simp only [Option.some_bind]
  have hlen0 : 0 < closes.length := List.length_pos.mpr hne
  obtain ⟨lastC, hlastC, _⟩ := pyIdx_neg_some closes (-1) (by norm_num) (by omega)
  rw [hlastC]
  simp only [Option.some_bind]
  set s4 := breakoutStage s3 closes cfg.breakout_lookback lastC with hs4
  have d4 : s4 = s3 ∨ s4 = 0 :=
    breakoutStage_cases s3 closes cfg.breakout_lookback lastC
  set s5 := atrStage s4 closes cfg.atr_period cfg.atr_min_pct lastC with hs5
  have d5 : s5 = s4 ∨ s5 = 0 :=
    atrStage_cases s4 closes cfg.atr_period cfg.atr_min_pct lastC
  obtain ⟨s6, h6, d6⟩ :=
    slopeStage_cases s5 closes fastLen cfg.slope_lookback cfg.slope_min_abs hsl
  rw [h6]
  have hfin : s6 = raw ∨ s6 = 0 :=
    keepOrZero_step _ _ _ d6 (keepOrZero_step _ _ _ d5 (keepOrZero_step _ _ _ d4
      (keepOrZero_step _ _ _ d3 (keepOrZero_step _ _ _ d2 d1))))
  rcases hfin with h | h
  · exact Or.inl (by rw [h])
  · exact Or.inr (by rw [h])

/-- C1 witness: the filter chain on a concrete rising series with the
default filter configuration. -/
theorem apply_filters_monotone_witness :
    apply_filters 1 [100, 102, 104] none {} 2 = some 1 ∨
    apply_filters 1 [100, 102, 104] none {} 2 = some 0 :=
  apply_filters_monotone 1 [100, 102, 104] none {} 2 (by simp)
    (by
      intro x hx
      simp only [List.mem_cons, List.not_mem_nil, or_false] at hx
      rcases hx with rfl | rfl | rfl <;> norm_num)
    (by show (1 : ℤ) ≤ 50; norm_num)
    (by show (0 : ℤ) ≤ 3; norm_num)

/-- The spot notional adjuster only holds or decreases the quantity and
changes no other field. -/
lemma adjustSpotOrder_le (o : OrderRequest) (ctx : PriceCtx) (cap : ℚ) :
    (adjustSpotOrder o ctx cap).amount ≤ o.amount ∧
    adjustSpotOrder o ctx cap = { o with amount := (adjustSpotOrder o ctx cap).amount } := by
  unfold adjustSpotOrder
  rcases hp : ctx.spotLast o.symbol with _ | p <;> simp only [hp]
  · exact ⟨le_refl _, trivial⟩
  · split
    · rename_i hcond
      obtain ⟨hppos, hcap, hnot⟩ := hcond
      refine ⟨?_, rfl⟩
      show cap / p ≤ o.amount
      exact le_of_lt ((div_lt_iff₀ hppos).mpr (by linarith))
    · exact ⟨le_refl _, rfl⟩

/-- The futures notional adjuster (given positive contract sizes) only
holds or decreases the quantity and changes no other field. -/
lemma adjustFuturesOrder_le (o : OrderRequest) (ctx : PriceCtx) (cap : ℚ)
    (hcs : ∀ c, ctx.futContractSize o.symbol = some c → 0 < c) :
    (adjustFuturesOrder o ctx cap).amount ≤ o.amount ∧
    adjustFuturesOrder o ctx cap =
      { o with amount := (adjustFuturesOrder o ctx cap).amount } := by
  unfold adjustFuturesOrder
  rcases h1 : ctx.futContractSize o.symbol with _ | cs <;>
    rcases h2 : ctx.futLast o.symbol with _ | p <;> simp only [h1, h2]
  · exact ⟨le_refl _, trivial⟩
  · exact ⟨le_refl _, trivial⟩
  · exact ⟨le_refl _, trivial⟩
  · split
    · rename_i hcond
      obtain ⟨hppos, hcap, hnot⟩ := hcond
      have hcs0 : 0 < cs := hcs cs h1
      have hcspos : 0 < cs * p := mul_pos hcs0 hppos
      refine ⟨?_, rfl⟩
      show min (cap / (cs * p)) MAX_FUTURES_CONTRACTS_PER_ORDER ≤ o.amount
      have hlt : cap / (cs * p) < o.amount := by
        rw [div_lt_iff₀ hcspos]
        have : o.amount * cs * p = o.amount * (cs * p) := by ring
        linarith [hnot, this.symm ▸ hnot]
      exact le_of_lt (lt_of_le_of_lt (min_le_left _ _) hlt)
    · split
      · rename_i h3
        exact ⟨le_of_lt h3, rfl⟩
      · exact ⟨le_refl _, rfl⟩

/-- Deduplication only selects orders from the input batch. -/
lemma dedupeOrders_subset (l : List OrderRequest) :
    ∀ (seen : List OrderKey), ∀ o ∈ dedupeOrders l seen, o ∈ l := by
  induction l with
  | nil =>
    intro seen o ho
    simp [dedupeOrders] at ho
  | cons a rest ih =>
    intro seen o ho
    simp only [dedupeOrders] at ho
    split at ho
    · exact List.mem_cons_of_mem a (ih _ o ho)
    · rcases List.mem_cons.1 ho with rfl | hmem
      · exact List.mem_cons_self _ _
      · exact List.mem_cons_of_mem a (ih _ o hmem)

/-- C8: every order that comes out of the Risk Control Adjuster descends
from an input order with all fields unchanged except the quantity, and
its quantity is less than or equal to the quantity it entered with
(given positive contract sizes in the pricing context). -/
theorem risk_controls_never_increase (env : Env) (orders : List OrderRequest)
    (ctx : PriceCtx) (maxSpot maxFut : ℚ)
    (hcs : ∀ s c, ctx.futContractSize s = some c → 0 < c) :
    ∀ o2 ∈ apply_risk_controls env orders ctx maxSpot maxFut,
      ∃ o ∈ orders, o2.amount ≤ o.amount ∧ o2 = { o with amount := o2.amount } := by
  intro o2 h2
  by_cases hnil : orders = []
  · subst hnil
    simp [apply_risk_controls] at h2
  · unfold apply_risk_controls at h2
    rw [if_neg hnil] at h2
    simp only [DEDUPE_SAME_SYMBOL_SIDE, if_true] at h2
    obtain ⟨o, ho, rfl⟩ := List.mem_map.1 h2
    have homem : o ∈ orders := by
      apply dedupeOrders_subset orders []
      by_cases hlen : (dedupeOrders orders []).length > MAX_ORDERS_PER_RUN
      · rw [if_pos hlen] at ho
        exact List.mem_of_mem_take ho
      · rw [if_neg hlen] at ho
        exact ho
    by_cases hmkt : o.market = .SPOT
    · simp only [if_pos hmkt]
      obtain ⟨hle, heq⟩ := adjustSpotOrder_le o ctx maxSpot
      exact ⟨o, homem, hle, heq⟩
    · simp only [if_neg hmkt]
      obtain ⟨hle, heq⟩ := adjustFuturesOrder_le o ctx maxFut (fun c h => hcs _ c h)
      exact ⟨o, homem, hle, heq⟩

/-- Concrete spot order used for the C8 witness. -/
def c8order : OrderRequest :=
  { env := .TEST, market := .SPOT, symbol := "BTC/USDT", side := .BUY,
    amount := 5 }

/-- Concrete pricing context used for the C8 witness. -/
def c8ctx : PriceCtx :=
  { spotLast := fun _ => some 100, futLast := fun _ => some 100,
    futContractSize := fun _ => some 1 }

/-- C8 witness: the adjuster keeps the concrete order below its input
quantity on a concrete batch. -/
theorem risk_controls_never_increase_witness :
    ∃ o ∈ [c8order], c8order.amount ≤ o.amount ∧
      c8order = { o with amount := c8order.amount } :=
  risk_controls_never_increase .TEST [c8order] c8ctx 1000 1000
    (fun s c h => by
      simp only [c8ctx, Option.some.injEq] at h
      rw [← h]
      norm_num)
    c8order
    (by
      norm_num [apply_risk_controls, DEDUPE_SAME_SYMBOL_SIDE, dedupeOrders,
        MAX_ORDERS_PER_RUN, adjustSpotOrder, c8order, c8ctx])

/-- C4 (amended): `generate_signal` returns signal 0 — never a direction,
never an exception — whenever the close series is shorter than the
minimum history: `max(10, slow + 1)` bars for variant A and
`max(guard_ma, entry_ma2) + 5` bars for variant B. -/
theorem generate_signal_min_history (klines : List (List ℚ)) (cfg : BotCfg)
    (htfKlines : Option (List (List ℚ))) :
    (cfg.logic.mode = .A →
      ((extract_closes klines).length : ℤ) < max 10 (cfg.logic.slow + 1) →
      generate_signal klines cfg htfKlines = some 0) ∧
    (cfg.logic.mode = .B →
      ((extract_closes klines).length : ℤ) <
        max cfg.logic.bcfg.guard_ma cfg.logic.bcfg.entry_ma2 + 5 →
      generate_signal klines cfg htfKlines = some 0) := by
  constructor
  · intro hmode hlen
    unfold generate_signal
    rw [hmode]
    by_cases h10 : (extract_closes klines).length < 10
    · rw [if_pos h10]
    · rw [if_neg h10]
      have hslow : ((extract_closes klines).length : ℤ) < cfg.logic.slow + 1 := by
        rcases le_or_lt (cfg.logic.slow + 1) 10 with h | h
        · rw [max_eq_left h] at hlen
          omega
        · rw [max_eq_right h.le] at hlen
          exact hlen
      have hbase0 : base_signal_from_ma (extract_closes klines) cfg.logic.fast
          cfg.logic.slow cfg.logic.sg = some 0 := by
        unfold base_signal_from_ma
        rw [if_pos hslow]
      rw [hbase0]
      simp
  · intro hmode hlen
    unfold generate_signal
    rw [hmode]
    cases htfKlines with
    | none => rfl
    | some hk =>
      show (if hk = [] then some 0
            else generate_signal_b_pullback klines hk cfg) = some 0
      by_cases hhk : hk = []
      · rw [if_pos hhk]
      · rw [if_neg hhk]
        have hguard : (((extract_ohlc klines).2.2.2).length : ℤ) <
            max cfg.logic.bcfg.guard_ma cfg.logic.bcfg.entry_ma2 + 5 := hlen
        simp only [generate_signal_b_pullback, if_pos hguard]

/-- Concrete variant-A configuration used for C4: slow period 10. -/
def c4cfg : BotCfg :=
  { logic := { mode := .A, fast := 2, slow := 10, sg := 9, bcfg := {} },
    filters := {} }

/-- Concrete kline rows whose 11 closes rise from 100 to 120. -/
def c4klines : List (List ℚ) :=
  [[0, 100, 100, 100, 100], [0, 102, 102, 102, 102], [0, 104, 104, 104, 104],
   [0, 106, 106, 106, 106], [0, 108, 108, 108, 108], [0, 110, 110, 110, 110],
   [0, 112, 112, 112, 112], [0, 114, 114, 114, 114], [0, 116, 116, 116, 116],
   [0, 118, 118, 118, 118], [0, 120, 120, 120, 120]]

/-- C4 counterexample: a series of exactly `slow + 1 = 11` bars — fewer
than the claimed `slow + 2` minimum — on which variant A produces the
directional signal 1, not 0. -/
theorem generate_signal_min_history_counterexample :
    (extract_closes c4klines).length = 11 ∧
    ((extract_closes c4klines).length : ℤ) < c4cfg.logic.slow + 2 ∧
    generate_signal c4klines c4cfg none = some 1 := by
  have hcl : extract_closes c4klines =
      [100, 102, 104, 106, 108, 110, 112, 114, 116, 118, 120] := rfl
  have hbase : base_signal_from_ma
      [100, 102, 104, 106, 108, 110, 112, 114, 116, 118, 120] 2 10 9 =
      some 1 := by
    norm_num +decide [base_signal_from_ma, ema, emaFrom, abs_eq_max_neg,
      max_def]
  have hfilters : apply_filters 1
      [100, 102, 104, 106, 108, 110, 112, 114, 116, 118, 120] none {} 2 =
      some 1 := by
    norm_num +decide [apply_filters, htfStage, rsiStage, rsi, crashStage,
      detect_crash, pyIdx, breakoutStage, recent_high_low, pySlice, maxListQ,
      minListQ, atrStage, atr_from_closes, slopeStage, ema, emaFrom, deltasOf,
      Option.join, abs_eq_max_neg, max_def, min_def,
      show Int.toNat 4 = 4 from rfl, show Int.toNat 5 = 5 from rfl,
      show Int.toNat 7 = 7 from rfl, show Int.toNat 10 = 10 from rfl]
  refine ⟨rfl, by norm_num [hcl, c4cfg], ?_⟩
  unfold generate_signal
  simp only [c4cfg, hcl, hbase, Option.some_bind]
  rw [if_neg (by norm_num), if_neg (by norm_num : ¬ ((1 : ℤ) = 0))]
  exact hfilters

/-- C4 witness: the amended minimum-history statement on an empty kline
list in variant A. -/
theorem generate_signal_min_history_witness :
    c4cfg.logic.mode = .A ∧
    (((extract_closes ([] : List (List ℚ))).length : ℤ) <
      max 10 (c4cfg.logic.slow + 1)) ∧
    generate_signal [] c4cfg none = some 0 :=
  ⟨rfl, by norm_num [extract_closes, c4cfg],
    (generate_signal_min_history [] c4cfg none).1 rfl
      (by norm_num [extract_closes, c4cfg])⟩
